import Mathlib

/-!
# FontArchitect — verification of the glyph-geometry pipeline

Shallow embedding of the FontArchitect sources:

* `services/imageProcessor` (`src/unnamed/part_001`, first section): pixel
  classification, connected-component extraction (`detectGlyphs`), the blob
  merge fixed-point loop, and row organization.
* `services/texturePacker` (`src/unnamed/part_001`, second section):
  `packTexture` shelf packing.
* `services/fntGenerator` (`src/unnamed/part_000`, second section):
  `generateFnt` text serialization.
* `App.tsx`: the batched identification handler `handleIdentifyChars`.

Glyph coordinates are JavaScript numbers; throughout the pipeline they only
ever hold integer values (pixel indices, mins/maxes, sums), so they are
modelled as `Int`.  The few genuinely fractional intermediate quantities
(`maxDim * 0.5`, vertical centers divided by `2` and `1.5`) are modelled in
`ℚ`; each such value is exactly representable in binary floating point or
appears only in comparisons whose outcome agrees with exact arithmetic.
Strings are modelled as Lean `String` (a list of Unicode scalars);
`charCodeAt(0)` is modelled as the first UTF-16 code unit of the encoding.
-/

/-- The `Glyph` record from `src/types.ts`. -/
structure Glyph where
  id : Int
  char : String
  x : Int
  y : Int
  width : Int
  height : Int
  xoffset : Int
  yoffset : Int
  xadvance : Int
deriving DecidableEq

/-- Placeholder glyph used for (never-taken) out-of-bounds list reads. -/
def defaultGlyph : Glyph :=
  { id := 0, char := "", x := 0, y := 0, width := 0, height := 0,
    xoffset := 0, yoffset := 0, xadvance := 0 }

/-! ## BlobMerger (`detectGlyphs`, step 2, part_001 lines 127-188) -/

/-- Horizontal bounding-box overlap of two glyphs:
`x2 - x1` with `x1 = max(g1.x, g2.x)`, `x2 = min(g1.x+g1.width, g2.x+g2.width)`
(part_001 lines 142-144). -/
def overlapX (g1 g2 : Glyph) : Int :=
  min (g1.x + g1.width) (g2.x + g2.width) - max g1.x g2.x

/-- Vertical gap `distY = top2 - bottom1 = g2.y - (g1.y + g1.height)`
(part_001 lines 155-157). -/
def distY (g1 g2 : Glyph) : Int :=
  g2.y - (g1.y + g1.height)

/-- `allowedGap = Math.max(5, maxDim * 0.5)` with
`maxDim = Math.max(g1.height, g2.height)` (part_001 lines 162-163).
`0.5` is exactly representable in floating point, so `ℚ` models it exactly. -/
def allowedGap (g1 g2 : Glyph) : ℚ :=
  max 5 ((max g1.height g2.height : Int) * (1 / 2 : ℚ))

/-- The merge test applied to an ordered pair `(g1, g2)`:
positive horizontal overlap (line 150) and `distY >= -5 && distY < allowedGap`
(line 166). -/
def mergeCond (g1 g2 : Glyph) : Bool :=
  decide (0 < overlapX g1 g2) &&
    (decide (-5 ≤ distY g1 g2) && decide ((distY g1 g2 : ℚ) < allowedGap g1 g2))

/-- Merging `g2` into `g1` (part_001 lines 167-177): the surviving record keeps
`g1`'s identity and offsets, its box becomes the union of the two boxes, and
`xadvance` is recomputed as the new width plus one. -/
def mergeBoxes (g1 g2 : Glyph) : Glyph :=
  let newX := min g1.x g2.x
  let newY := min g1.y g2.y
  let newMaxX := max (g1.x + g1.width) (g2.x + g2.width)
  let newMaxY := max (g1.y + g1.height) (g2.y + g2.height)
  { g1 with
    x := newX, y := newY,
    width := newMaxX - newX, height := newMaxY - newY,
    xadvance := newMaxX - newX + 1 }

/-- `rawGlyphs.sort((a, b) => a.y - b.y)` (part_001 line 133): a stable sort by
top-Y ascending, modelled with the stable `List.mergeSort`. -/
def sortByY (l : List Glyph) : List Glyph :=
  l.mergeSort fun a b => a.y ≤ b.y

/-- The double scan of part_001 lines 135-185: the first ordered pair of
distinct indices `(i, j)` (outer `i` ascending, inner `j` ascending) whose
glyphs satisfy the merge test. -/
def findMergePair (l : List Glyph) : Option (Nat × Nat) :=
  (List.range l.length).findSome? fun i =>
    (List.range l.length).findSome? fun j =>
      if i ≠ j ∧ mergeCond (l.getD i defaultGlyph) (l.getD j defaultGlyph) then
        some (i, j)
      else none

/-- One merge: overwrite position `i` with the merged glyph and splice out
position `j` (part_001 lines 167-180). -/
def applyMerge (l : List Glyph) (i j : Nat) : List Glyph :=
  (l.set i (mergeBoxes (l.getD i defaultGlyph) (l.getD j defaultGlyph))).eraseIdx j

/-- The `while (mergedOccurred)` loop of part_001 lines 129-188: each pass
sorts by Y, performs at most one merge and restarts; a pass with no merge ends
the loop.  Every merge shortens the list by one, so `l.length` passes of fuel
are always enough; the `fuel = 0` case is then only reached with `l = []`,
where returning `sortByY l = []` agrees with the loop. -/
def mergeLoopAux : Nat → List Glyph → List Glyph
  | 0, l => sortByY l
  | fuel + 1, l =>
    let s := sortByY l
    match findMergePair s with
    | none => s
    | some (i, j) => mergeLoopAux fuel (applyMerge s i j)

/-- The complete BlobMerger fixed-point loop. -/
def mergeLoop (l : List Glyph) : List Glyph :=
  mergeLoopAux l.length l

/-- `outer` contains `inner` as a bounding box. -/
def boxContains (outer inner : Glyph) : Prop :=
  outer.x ≤ inner.x ∧ outer.y ≤ inner.y ∧
    inner.x + inner.width ≤ outer.x + outer.width ∧
    inner.y + inner.height ≤ outer.y + outer.height

/-- Bounding-box area. -/
def area (g : Glyph) : Int :=
  g.width * g.height

/-- The stem box `(10,10,4,10)` of the spec's boundary example. -/
def specStem : Glyph :=
  { defaultGlyph with x := 10, y := 10, width := 4, height := 10 }

/-- The dot box `(11,2,2,2)` of the spec's boundary example. -/
def specDot : Glyph :=
  { defaultGlyph with x := 11, y := 2, width := 2, height := 2 }

/-! ## RowOrganizer (`detectGlyphs`, steps 3-5, part_001 lines 190-233) -/

/-- The comparator of the initial sort (part_001 lines 191-196):
`if |a.y - b.y| > 20 return a.y - b.y else return a.x - b.x`, expressed as a
boolean "may stay before" relation for the stable sort. -/
def initialSortLE (a b : Glyph) : Bool :=
  if 20 < (a.y - b.y).natAbs then a.y ≤ b.y else a.x ≤ b.x

/-- Row-membership test (part_001 lines 207-210): the glyph's vertical center
must lie within `max(g.height, currentRowH) / 1.5` of the running row center.
The divisions are modelled exactly in `ℚ`. -/
def rowJoin (g : Glyph) (rowY rowH : Int) : Bool :=
  decide (|((g.y : ℚ) + (g.height : ℚ) / 2) - ((rowY : ℚ) + (rowH : ℚ) / 2)|
    < (max g.height rowH : Int) / (3 / 2 : ℚ))

/-- The row-building pass (part_001 lines 200-222), carrying the open row and
its running reference `currentRowY` / `currentRowH`.  Note that on a join
`currentRowY` is updated first and the new value is used in the
`currentRowH` update, exactly as in the source. -/
def buildRowsAux : List Glyph → List (List Glyph) → List Glyph → Int → Int →
    List (List Glyph)
  | [], rows, currentRow, _, _ => rows ++ [currentRow]
  | g :: rest, rows, currentRow, rowY, rowH =>
    if rowJoin g rowY rowH then
      let rowY' := min rowY g.y
      let rowH' := max rowH (g.height + (g.y - rowY'))
      buildRowsAux rest rows (currentRow ++ [g]) rowY' rowH'
    else
      buildRowsAux rest (rows ++ [currentRow]) [g] g.y g.height

/-- Group a sorted glyph list into rows (part_001 lines 199-222). -/
def buildRows : List Glyph → List (List Glyph)
  | [] => []
  | g :: rest => buildRowsAux rest [] [g] g.y g.height

/-- `Math.min(...row.map(g => g.y))` for a (nonempty) row
(part_001 line 227); the empty case is never reached. -/
def rowMinY : List Glyph → Int
  | [] => 0
  | g :: rest => rest.foldl (fun m h => min m h.y) g.y

/-- Processing one finished row (part_001 lines 226-233): sort by X ascending
(stable `(a, b) => a.x - b.x`) and set `yoffset = g.y - rowMinY`. -/
def processRow (row : List Glyph) : List Glyph :=
  (row.mergeSort fun a b => a.x ≤ b.x).map fun g =>
    { g with yoffset := g.y - rowMinY row }

/-- Steps 3-5 of `detectGlyphs`: initial reading-order sort, row grouping, and
per-row offset assignment, flattened row-major. -/
def organizeRows (l : List Glyph) : List Glyph :=
  ((buildRows (l.mergeSort initialSortLE)).map processRow).flatten

/-! ## PixelClassifier and BlobExtractor (part_001 lines 5-125) -/

/-- The decoded image: a `width × height` RGBA buffer.  `data i` is the `i`-th
byte of the flat `Uint8ClampedArray`. -/
structure ImageData where
  width : Nat
  height : Nat
  data : Nat → Nat

/-- `isContentPixel` (part_001 lines 5-29) with the default tolerance 20.
For a solid background the source compares
`sqrt((r-bgR)² + (g-bgG)² + (b-bgB)²) > 20`; since the radicand is a
nonnegative integer and `sqrt` is monotone, this is equivalent to the exact
integer comparison `(r-bgR)² + (g-bgG)² + (b-bgB)² > 400` used here. -/
def isContentPixel (data : Nat → Nat) (idx : Nat) (bgR bgG bgB bgA : Nat) :
    Bool :=
  let r : Int := data idx
  let g : Int := data (idx + 1)
  let b : Int := data (idx + 2)
  let a : Int := data (idx + 3)
  if bgA = 0 then
    decide ((20 : Int) < a)
  else
    decide ((20 : Int) ^ 2 < (r - bgR) ^ 2 + (g - bgG) ^ 2 + (b - bgB) ^ 2)

/-- State of one breadth-first flood fill (part_001 lines 73-103): the FIFO
queue of pixel indices, the visited map, and the running bounding box. -/
structure BfsState where
  queue : List Nat
  visited : List Bool
  minX : Int
  maxX : Int
  minY : Int
  maxY : Int

/-- Handling of one 4-connectivity neighbor `(nx, ny)` of the dequeued pixel
(part_001 lines 91-102): in-bounds, unvisited content pixels are marked
visited and enqueued. -/
def bfsNeighbor (img : ImageData) (bgR bgG bgB bgA : Nat) (st : BfsState)
    (n : Int × Int) : BfsState :=
  let nx := n.1
  let ny := n.2
  if 0 ≤ nx ∧ nx < (img.width : Int) ∧ 0 ≤ ny ∧ ny < (img.height : Int) then
    let nIdx := (ny * (img.width : Int) + nx).toNat
    if st.visited.getD nIdx false then st
    else if isContentPixel img.data (nIdx * 4) bgR bgG bgB bgA then
      { st with queue := st.queue ++ [nIdx], visited := st.visited.set nIdx true }
    else st
  else st

/-- The `while (queue.length > 0)` flood-fill loop (part_001 lines 73-103).
Each dequeued pixel was marked visited when enqueued and pixels are enqueued
at most once, so `width * height` fuel always suffices; the fuel-exhausted
case is unreachable. -/
def bfsLoop (img : ImageData) (bgR bgG bgB bgA : Nat) :
    Nat → BfsState → BfsState
  | 0, st => st
  | fuel + 1, st =>
    match st.queue with
    | [] => st
    | curr :: rest =>
      let cy : Int := (curr : Int) / (img.width : Int)
      let cx : Int := (curr : Int) % (img.width : Int)
      let st1 : BfsState :=
        { st with
          queue := rest,
          minX := min st.minX cx, maxX := max st.maxX cx,
          minY := min st.minY cy, maxY := max st.maxY cy }
      let neighbors : List (Int × Int) :=
        [(cx + 1, cy), (cx - 1, cy), (cx, cy + 1), (cx, cy - 1)]
      bfsLoop img bgR bgG bgB bgA fuel
        (neighbors.foldl (bfsNeighbor img bgR bgG bgB bgA) st1)

/-- The raster scan of part_001 lines 58-125 over the remaining row-major
pixel coordinates, threading the visited map, the id counter and the list of
discovered blobs. -/
def scanPixels (img : ImageData) (bgR bgG bgB bgA : Nat) :
    List (Nat × Nat) → List Bool → Int → List Glyph → List Glyph
  | [], _, _, acc => acc
  | (x, y) :: rest, visited, counter, acc =>
    let pixelIndex := y * img.width + x
    let idx := pixelIndex * 4
    if visited.getD pixelIndex false then
      scanPixels img bgR bgG bgB bgA rest visited counter acc
    else if isContentPixel img.data idx bgR bgG bgB bgA then
      let st0 : BfsState :=
        { queue := [pixelIndex], visited := visited.set pixelIndex true,
          minX := (x : Int), maxX := (x : Int),
          minY := (y : Int), maxY := (y : Int) }
      let st := bfsLoop img bgR bgG bgB bgA (img.width * img.height) st0
      let w := st.maxX - st.minX + 1
      let h := st.maxY - st.minY + 1
      if 0 < w ∧ 0 < h then
        scanPixels img bgR bgG bgB bgA rest st.visited (counter + 1)
          (acc ++ [{ id := counter, char := "", x := st.minX, y := st.minY,
                     width := w, height := h, xoffset := 0, yoffset := 0,
                     xadvance := w + 1 }])
      else
        scanPixels img bgR bgG bgB bgA rest st.visited counter acc
    else
      scanPixels img bgR bgG bgB bgA rest visited counter acc

/-- The row-major scan order of part_001 lines 58-59. -/
def rasterOrder (img : ImageData) : List (Nat × Nat) :=
  (List.range img.height).flatMap fun y =>
    (List.range img.width).map fun x => (x, y)

/-- Step 1 of `detectGlyphs`: sample the background from the top-left pixel
(part_001 lines 48-51) and run connected-component labeling. -/
def extractBlobs (img : ImageData) : List Glyph :=
  scanPixels img (img.data 0) (img.data 1) (img.data 2) (img.data 3)
    (rasterOrder img) (List.replicate (img.width * img.height) false) 0 []

/-- The full `detectGlyphs` pipeline (part_001 lines 31-236): extraction,
merge fixed point, row organization.  The canvas plumbing of the source
(drawing the image and reading its pixels back) is the identity on the pixel
buffer and is not modelled. -/
def detectGlyphs (img : ImageData) : List Glyph :=
  organizeRows (mergeLoop (extractBlobs img))

/-! ## TexturePacker (`packTexture`, part_001 second section)

`packTexture` crops each glyph's pixels to a per-glyph canvas, lays the crops
out with shelf packing, and blits them onto a fresh atlas.  Only the geometry
is modelled: the per-item canvases carry no information relevant to placement,
so an item keeps `id`, `w`, `h` and the original glyph, as in the source. -/

/-- One entry of the `items` array (packTexture step 1). -/
structure PackItem where
  id : Int
  w : Int
  h : Int
  originalGlyph : Glyph
deriving DecidableEq

/-- `glyphs.map(g => ({id: g.id, w: g.width, h: g.height, ...}))`. -/
def packItems (glyphs : List Glyph) : List PackItem :=
  glyphs.map fun g => ⟨g.id, g.width, g.height, g⟩

/-- `items.sort((a, b) => b.h - a.h)` (step 2): stable sort by height
descending. -/
def sortItems (items : List PackItem) : List PackItem :=
  items.mergeSort fun a b => b.h ≤ a.h

/-- `items.reduce((acc, item) => acc + item.w * item.h, 0)` (step 3). -/
def totalAreaOf (items : List PackItem) : Int :=
  items.foldl (fun acc it => acc + it.w * it.h) 0

/-- `Math.ceil(Math.sqrt(totalArea * 1.1))` (step 3), i.e. the least `n` with
`10 * n² ≥ 11 * totalArea`, computed exactly.  `n = totalArea + 1` always
satisfies the bound, so the search never falls through to the default.
A nonpositive total area gives `NaN`/`0` in the source, for which the
power-of-two loop below never runs; `0` models both. -/
def sideOf (totalArea : Int) : Nat :=
  if totalArea ≤ 0 then 0
  else
    ((List.range (totalArea.toNat + 2)).find? fun n =>
      11 * totalArea.toNat ≤ 10 * n * n).getD (totalArea.toNat + 1)

/-- `let targetWidth = 128; while (targetWidth < side) targetWidth *= 2`
(part_001 second section, lines 319-321).  Starting from 128, `side` doubling
steps always overshoot `side`, so `side` fuel suffices and the fuel-exhausted
case is unreachable. -/
def growWidthAux : Nat → Nat → Nat → Nat
  | 0, target, _ => target
  | fuel + 1, target, side =>
    if target < side then growWidthAux fuel (target * 2) side else target

/-- The chosen power-of-two atlas width. -/
def targetWidthOf (side : Nat) : Nat :=
  growWidthAux side 128 side

/-- A packed item: the item plus its assigned `newX` / `newY`. -/
structure PackedItem where
  item : PackItem
  newX : Int
  newY : Int
deriving DecidableEq

/-- The shelf-packing cursor state: `x`, `y`, `currentRowHeight`, and the
`packedItems` accumulator. -/
structure PackState where
  x : Int
  y : Int
  rowH : Int
  placed : List PackedItem
deriving DecidableEq

/-- One iteration of the layout loop (step 4, lines 331-349): if the item
does not fit in the current row (`x + item.w + padding > targetWidth`), start
a new shelf; place the item at the cursor; update the row height and advance
the cursor.  `padding = 2`. -/
def packStep (targetWidth : Int) (st : PackState) (it : PackItem) : PackState :=
  let st1 :=
    if targetWidth < st.x + it.w + 2 then
      { st with x := 2, y := st.y + st.rowH + 2, rowH := 0 }
    else st
  { x := st1.x + it.w + 2, y := st1.y,
    rowH := max st1.rowH it.h,
    placed := st1.placed ++ [⟨it, st1.x, st1.y⟩] }

/-- The full layout loop, starting at `x = y = padding = 2`, row height 0. -/
def packLayout (targetWidth : Int) (items : List PackItem) : PackState :=
  items.foldl (packStep targetWidth) ⟨2, 2, 0, []⟩

/-- The result of `packTexture`: the relocated glyph list and atlas size. -/
structure PackedAtlas where
  glyphs : List Glyph
  width : Nat
  height : Int
deriving DecidableEq

/-- The geometric content of `packTexture` (part_001 second section): build
and sort the items, choose the power-of-two width, shelf-pack, emit the new
glyph records (each copying every field of the original except `x`/`y`), and
restore id order with the stable sort `(a, b) => a.id - b.id`. -/
def packTexture (glyphs : List Glyph) : PackedAtlas :=
  let items := sortItems (packItems glyphs)
  let targetWidth := targetWidthOf (sideOf (totalAreaOf items))
  let st := packLayout (targetWidth : Int) items
  let finalHeight := st.y + st.rowH + 2
  let newGlyphs :=
    (st.placed.map fun p =>
      { p.item.originalGlyph with x := p.newX, y := p.newY }).mergeSort
      fun a b => a.id ≤ b.id
  ⟨newGlyphs, targetWidth, finalHeight⟩

/-- Two glyph rectangles `[x, x+width) × [y, y+height)` share a point. -/
def rectsIntersect (a b : Glyph) : Prop :=
  max a.x b.x < min (a.x + a.width) (b.x + b.width) ∧
    max a.y b.y < min (a.y + a.height) (b.y + b.height)

/-- The placed rectangles `[newX, newX+w) × [newY, newY+h)` of two packed
items share a point. -/
def placedIntersect (p q : PackedItem) : Prop :=
  max p.newX q.newX < min (p.newX + p.item.w) (q.newX + q.item.w) ∧
    max p.newY q.newY < min (p.newY + p.item.h) (q.newY + q.item.h)

/-- Shelf-packing invariant for one placed item relative to the cursor: the
item either lies entirely above the current shelf, or it sits on the current
shelf, strictly to the left of the cursor, within the current row height. -/
def PlacedOk (st : PackState) (p : PackedItem) : Prop :=
  p.newY + p.item.h ≤ st.y ∨
    (p.newY = st.y ∧ p.newX + p.item.w + 2 ≤ st.x ∧ p.item.h ≤ st.rowH)

/-- Shelf-packing loop invariant: cursor inside the padding margin, a
nonnegative row height, every placed item in a valid position, and all placed
rectangles pairwise disjoint. -/
def PackInv (st : PackState) : Prop :=
  2 ≤ st.x ∧ 2 ≤ st.y ∧ 0 ≤ st.rowH ∧
    (∀ p ∈ st.placed, PlacedOk st p) ∧
    st.placed.Pairwise fun p q => ¬placedIntersect p q

/-! ## Text export (`generateFnt`, part_000 second section) -/

/-- The `FontSettings` record from `src/types.ts`. -/
structure FontSettings where
  face : String
  size : Int
  bold : Bool
  italic : Bool
  lineHeight : Int
  base : Int
  scaleW : Int
  scaleH : Int
  tracking : Int
deriving DecidableEq

/-- Decimal digits of `n`, most significant first, by repeated division;
`n + 1` fuel always suffices since `n / 10 < n` for `n ≥ 10`. -/
def natDecAux : Nat → Nat → List Char
  | 0, _ => []
  | fuel + 1, n =>
    if n < 10 then [Nat.digitChar n]
    else natDecAux fuel (n / 10) ++ [Nat.digitChar (n % 10)]

/-- Decimal representation of a natural number. -/
def natDec (n : Nat) : List Char :=
  natDecAux (n + 1) n

/-- JavaScript `${v}` stringification of an integer-valued number: decimal
digits, with a leading `-` for negative values. -/
def jsIntString (v : Int) : String :=
  if v < 0 then "-" ++ ⟨natDec v.natAbs⟩ else ⟨natDec v.toNat⟩

/-- The first UTF-16 code unit of the character `c`: the scalar value itself
for BMP characters, and the high surrogate for supplementary-plane
characters. -/
def utf16First (c : Char) : Int :=
  if c.toNat < 65536 then c.toNat else 55296 + ((c.toNat - 65536) / 1024)

/-- The char id computed at part_000 lines 110-114:
`charId = -1; if (g.char && g.char.length > 0) charId = g.char.charCodeAt(0)`.
`charCodeAt(0)` returns the first UTF-16 code unit of the string. -/
def charIdOf (s : String) : Int :=
  match s.data with
  | [] => -1
  | c :: _ => utf16First c

/-- The `info` line (part_000 line 95). -/
def infoLine (s : FontSettings) : String :=
  "info face=\"" ++ s.face ++ "\" size=" ++ jsIntString s.size ++
    " bold=" ++ (if s.bold then "1" else "0") ++
    " italic=" ++ (if s.italic then "1" else "0") ++
    " charset=\"\" unicode=1 stretchH=100 smooth=1 aa=1 padding=0,0,0,0 spacing=1,1 outline=0"

/-- The `common` line (part_000 line 98). -/
def commonLine (s : FontSettings) : String :=
  "common lineHeight=" ++ jsIntString s.lineHeight ++
    " base=" ++ jsIntString s.base ++
    " scaleW=" ++ jsIntString s.scaleW ++
    " scaleH=" ++ jsIntString s.scaleH ++
    " pages=1 packed=0 alphaChnl=1 redChnl=0 greenChnl=0 blueChnl=0"

/-- The `page` line (part_000 line 101). -/
def pageLine (imageFileName : String) : String :=
  "page id=0 file=\"" ++ imageFileName ++ "\""

/-- The `chars count` line (part_000 line 104). -/
def charsLine (glyphs : List Glyph) : String :=
  "chars count=" ++ jsIntString glyphs.length

/-- One `char` line (part_000 line 119), with
`finalXAdvance = g.xadvance + globalTracking`.  `settings.tracking || 0` is
the identity on the integer-valued `tracking` modelled here. -/
def charLine (tracking : Int) (g : Glyph) : String :=
  "char id=" ++ jsIntString (charIdOf g.char) ++
    " x=" ++ jsIntString g.x ++
    " y=" ++ jsIntString g.y ++
    " width=" ++ jsIntString g.width ++
    " height=" ++ jsIntString g.height ++
    " xoffset=" ++ jsIntString g.xoffset ++
    " yoffset=" ++ jsIntString g.yoffset ++
    " xadvance=" ++ jsIntString (g.xadvance + tracking) ++
    " page=0 chnl=15"

/-- The `lines` array built by `generateFnt` (part_000 lines 87-120). -/
def generateFntLines (glyphs : List Glyph) (settings : FontSettings)
    (imageFileName : String) : List String :=
  [infoLine settings, commonLine settings, pageLine imageFileName,
    charsLine glyphs] ++ glyphs.map (charLine settings.tracking)

/-- `lines.join('\n')` (part_000 line 122). -/
def generateFnt (glyphs : List Glyph) (settings : FontSettings)
    (imageFileName : String) : String :=
  String.intercalate "\n" (generateFntLines glyphs settings imageFileName)

/-! ### Re-parsing char lines

The repository has no parser; the round-trip property quantifies over the
obvious one: split a `char` line on blanks, split each `key=value` token on
`=`, and read the decimal integers back. -/

/-- Fold decimal digits into a number; any non-digit aborts. -/
def parseNatAux : List Char → Nat → Option Nat
  | [], acc => some acc
  | c :: rest, acc =>
    if c.isDigit then parseNatAux rest (acc * 10 + (c.toNat - 48)) else none

/-- Parse a nonempty all-digit string. -/
def parseNatL : List Char → Option Nat
  | [] => none
  | c :: rest => parseNatAux (c :: rest) 0

/-- Parse an optional-sign decimal integer. -/
def parseIntL : List Char → Option Int
  | [] => none
  | c :: rest =>
    if c = '-' then (parseNatL rest).map fun n => -(n : Int)
    else (parseNatL (c :: rest)).map fun n => (n : Int)

/-- Parse a `key=value` token against an expected key. -/
def parseKV (key : String) (w : List Char) : Option Int :=
  match w.splitOn '=' with
  | [k, v] => if k = key.data then parseIntL v else none
  | _ => none

/-- The eight numeric fields carried by one `char` line. -/
structure CharRecord where
  id : Int
  x : Int
  y : Int
  width : Int
  height : Int
  xoffset : Int
  yoffset : Int
  xadvance : Int
deriving DecidableEq

/-- Parse one `char` line of the text export. -/
def parseCharLine (s : String) : Option CharRecord :=
  match s.data.splitOn ' ' with
  | [w0, w1, w2, w3, w4, w5, w6, w7, w8, w9, w10] =>
    if w0 = "char".data ∧ w9 = "page=0".data ∧ w10 = "chnl=15".data then
      match parseKV "id" w1, parseKV "x" w2, parseKV "y" w3,
          parseKV "width" w4, parseKV "height" w5, parseKV "xoffset" w6,
          parseKV "yoffset" w7, parseKV "xadvance" w8 with
      | some i, some a, some b, some w, some h, some xo, some yo, some xa =>
        some ⟨i, a, b, w, h, xo, yo, xa⟩
      | _, _, _, _, _, _, _, _ => none
    else none
  | _ => none

/-- A line of the export is a `char` line iff it starts with `"char "`. -/
def isCharLine (s : String) : Bool :=
  "char ".data.isPrefixOf s.data

/-- Re-parse the char lines of an emitted line list. -/
def parseFntCharLines (lines : List String) : List (Option CharRecord) :=
  (lines.filter isCharLine).map parseCharLine

/-! ## Batched identification (`handleIdentifyChars`, App.tsx lines 70-105)

The handler crops one image per glyph, identifies them in batches of
`BATCH_SIZE = 50` through the external service, merges each successful
batch's `{index, char}` pairs into `allIdentifiedChars`, and only after the
loop finishes stores the merged labels with `setGlyphs`.  A batch that throws
propagates out of the `for` loop into the `catch`, which only alerts, so the
component state is left untouched.  The service is modelled as a function
`identify` returning `Except`; the cropped images as an opaque `List String`
parallel to the glyph list. -/

/-- The batch loop (App.tsx lines 78-90): take 50 images at a time, identify,
and merge results re-indexed by the batch offset.  One step consumes 50 > 0
images, so `images.length` fuel suffices; the fuel-exhausted case is
unreachable. -/
def runBatchesAux (identify : List String → Except Unit (List (Nat × String))) :
    Nat → List String → Nat → List (Nat × String) →
    Except Unit (List (Nat × String))
  | _, [], _, acc => .ok acc
  | 0, _ :: _, _, acc => .ok acc
  | fuel + 1, img :: rest, i, acc =>
    match identify ((img :: rest).take 50) with
    | .error e => .error e
    | .ok results =>
      runBatchesAux identify fuel ((img :: rest).drop 50) (i + 50)
        (acc ++ results.map fun r => (i + r.1, r.2))

/-- `allIdentifiedChars` after the batch loop, or the propagated failure. -/
def runBatches (identify : List String → Except Unit (List (Nat × String)))
    (images : List String) : Except Unit (List (Nat × String)) :=
  runBatchesAux identify images.length images 0 []

/-- Lookup in the merged record; a later assignment to the same index wins,
as for a JavaScript object. -/
def lookupChar (m : List (Nat × String)) (k : Nat) : Option String :=
  (m.reverse.find? fun p => p.1 == k).map (·.2)

/-- The `setGlyphs` mapper (App.tsx lines 92-97): a glyph takes the label at
its index when that label is truthy (present and nonempty). -/
def applyIdentified (m : List (Nat × String)) (glyphs : List Glyph) :
    List Glyph :=
  glyphs.enum.map fun p =>
    match lookupChar m p.1 with
    | some s => if s ≠ "" then { p.2 with char := s } else p.2
    | none => p.2

/-- The observable effect of `handleIdentifyChars` on the glyph list. -/
def handleIdentifyChars
    (identify : List String → Except Unit (List (Nat × String)))
    (images : List String) (glyphs : List Glyph) : List Glyph :=
  match runBatches identify images with
  | .error _ => glyphs
  | .ok m => applyIdentified m glyphs

/-! ## Concrete inputs used by witnesses and counterexamples -/

/-- A concrete 2×1 image: transparent background pixel at (0,0), one opaque
pixel at (1,0). -/
def witnessImage : ImageData :=
  ⟨2, 1, fun i => if i = 7 then 255 else 0⟩

/-- The single glyph detected on `witnessImage`. -/
def witnessGlyph : Glyph :=
  { id := 0, char := "", x := 1, y := 0, width := 1, height := 1,
    xoffset := 0, yoffset := 0, xadvance := 2 }

/-- A glyph 200 pixels wide and 1 pixel tall: its area estimate keeps the
atlas at the 128 floor, yet it cannot fit in a 128-wide row. -/
def wideGlyph : Glyph :=
  { id := 0, char := "", x := 0, y := 0, width := 200, height := 1,
    xoffset := 0, yoffset := 0, xadvance := 201 }

/-- An identification service that answers only full batches of 50 images,
labeling batch index 0 with "A", and fails on any other batch size. -/
def badIdentify (batch : List String) : Except Unit (List (Nat × String)) :=
  if batch.length = 50 then .ok [(0, "A")] else .error ()

/-- An unlabeled glyph with id 7 and advance 5. -/
def c4Glyph : Glyph :=
  { defaultGlyph with id := 7, xadvance := 5 }

/-- Font settings with a nonzero global tracking of 3. -/
def c4Settings : FontSettings :=
  { face := "F", size := 32, bold := false, italic := false, lineHeight := 32,
    base := 24, scaleW := 512, scaleH := 512, tracking := 3 }

/-! ## Helper lemmas -/

/-- Boolean transitivity of the sort-by-Y comparator. -/
theorem yLE_trans (a b c : Glyph) (hab : decide (a.y ≤ b.y) = true)
    (hbc : decide (b.y ≤ c.y) = true) : decide (a.y ≤ c.y) = true := by
  simp only [decide_eq_true_eq] at *
  omega

/-- Boolean totality of the sort-by-Y comparator. -/
theorem yLE_total (a b : Glyph) :
    (decide (a.y ≤ b.y) || decide (b.y ≤ a.y)) = true := by
  simpa using Int.le_total a.y b.y

/-- `sortByY` really sorts by top-Y. -/
theorem sortByY_sorted (l : List Glyph) :
    (sortByY l).Pairwise fun a b => a.y ≤ b.y := by
  have h := @List.sorted_mergeSort Glyph (fun a b => decide (a.y ≤ b.y))
    yLE_trans yLE_total l
  exact h.imp fun hab => by simpa using hab

/-- A list sorted by top-Y is a fixed point of `sortByY`. -/
theorem sortByY_of_sorted {l : List Glyph}
    (h : l.Pairwise fun a b => a.y ≤ b.y) : sortByY l = l :=
  List.mergeSort_of_sorted (h.imp fun hab => by simpa using hab)

/-- `sortByY` preserves length. -/
theorem sortByY_length (l : List Glyph) : (sortByY l).length = l.length :=
  List.length_mergeSort l

/-- What a successful pair scan guarantees. -/
theorem findMergePair_some {l : List Glyph} {i j : Nat}
    (h : findMergePair l = some (i, j)) :
    i < l.length ∧ j < l.length ∧ i ≠ j ∧
      mergeCond (l.getD i defaultGlyph) (l.getD j defaultGlyph) = true := by
  obtain ⟨i', hi', h2⟩ := List.exists_of_findSome?_eq_some h
  obtain ⟨j', hj', h3⟩ := List.exists_of_findSome?_eq_some h2
  rw [List.mem_range] at hi' hj'
  split at h3
  case isTrue hc =>
    obtain ⟨rfl, rfl⟩ : i' = i ∧ j' = j := by
      simpa using congrArg (fun o => (o.getD (0, 0))) h3
    exact ⟨hi', hj', hc.1, hc.2⟩
  case isFalse => exact absurd h3 (by simp)

/-- One merge shortens the working list by exactly one entry. -/
theorem applyMerge_length {l : List Glyph} {i j : Nat} (hj : j < l.length) :
    (applyMerge l i j).length = l.length - 1 := by
  simp [applyMerge, List.length_eraseIdx, hj]

/-! ## Claim theorems -/

/-- C5: after any single merge step, the surviving bounding box contains both
input bounding boxes, and its area is at least the larger input area. -/
theorem merge_contains_and_grows (g1 g2 : Glyph)
    (h1w : 0 < g1.width) (h1h : 0 < g1.height)
    (h2w : 0 < g2.width) (h2h : 0 < g2.height) :
    boxContains (mergeBoxes g1 g2) g1 ∧ boxContains (mergeBoxes g1 g2) g2 ∧
      max (area g1) (area g2) ≤ area (mergeBoxes g1 g2) := by
  unfold boxContains mergeBoxes area
  simp only [max_le_iff]
  refine ⟨⟨?_, ?_, ?_, ?_⟩, ⟨?_, ?_, ?_, ?_⟩, ?_, ?_⟩ <;> try omega
  · calc g1.width * g1.height
        ≤ (max (g1.x + g1.width) (g2.x + g2.width) - min g1.x g2.x) *
            g1.height := by
          apply mul_le_mul_of_nonneg_right _ (le_of_lt h1h)
          omega
      _ ≤ (max (g1.x + g1.width) (g2.x + g2.width) - min g1.x g2.x) *
            (max (g1.y + g1.height) (g2.y + g2.height) - min g1.y g2.y) := by
          apply mul_le_mul_of_nonneg_left _ (by omega)
          omega
  · calc g2.width * g2.height
        ≤ (max (g1.x + g1.width) (g2.x + g2.width) - min g1.x g2.x) *
            g2.height := by
          apply mul_le_mul_of_nonneg_right _ (le_of_lt h2h)
          omega
      _ ≤ (max (g1.x + g1.width) (g2.x + g2.width) - min g1.x g2.x) *
            (max (g1.y + g1.height) (g2.y + g2.height) - min g1.y g2.y) := by
          apply mul_le_mul_of_nonneg_left _ (by omega)
          omega

/-- Witness for C5 at the spec's stem and dot boxes. -/
theorem merge_contains_and_grows_witness :
    (0 < specStem.width ∧ 0 < specStem.height ∧
      0 < specDot.width ∧ 0 < specDot.height) ∧
      (boxContains (mergeBoxes specStem specDot) specStem ∧
        boxContains (mergeBoxes specStem specDot) specDot ∧
        max (area specStem) (area specDot) ≤ area (mergeBoxes specStem specDot)) :=
  ⟨⟨by decide, by decide, by decide, by decide⟩,
    merge_contains_and_grows specStem specDot
      (by decide) (by decide) (by decide) (by decide)⟩

/-- C2: with positive horizontal overlap, two blobs merge exactly when
`-5 ≤ distY < allowedGap` with the upper bound strictly exclusive; on the
spec's boundary example (stem `(10,10,4,10)`, dot `(11,2,2,2)`) the gap is
`distY = 6` against `allowedGap = 5`, so no merge happens in either scan
order. -/
theorem merge_threshold_exact :
    (∀ g1 g2 : Glyph, 0 < overlapX g1 g2 →
      (mergeCond g1 g2 = true ↔
        -5 ≤ distY g1 g2 ∧ ((distY g1 g2 : ℚ) < allowedGap g1 g2))) ∧
      distY specDot specStem = 6 ∧ allowedGap specDot specStem = 5 ∧
      mergeCond specDot specStem = false ∧ mergeCond specStem specDot = false := by
  refine ⟨fun g1 g2 h => ?_, by decide, ?_, ?_, ?_⟩
  · simp [mergeCond, h]
  · norm_num [allowedGap, specDot, specStem, defaultGlyph]
  · norm_num [mergeCond, overlapX, distY, allowedGap, specDot, specStem,
      defaultGlyph]
  · norm_num [mergeCond, overlapX, distY, allowedGap, specDot, specStem,
      defaultGlyph]

/-- Witness for C2 at a concrete positively-overlapping pair. -/
theorem merge_threshold_exact_witness :
    0 < overlapX specDot specStem ∧
      (mergeCond specDot specStem = true ↔
        -5 ≤ distY specDot specStem ∧
          ((distY specDot specStem : ℚ) < allowedGap specDot specStem)) :=
  ⟨by decide, merge_threshold_exact.1 specDot specStem (by decide)⟩

/-- Any sufficiently-fueled run of the merge loop ends on a Y-sorted list on
which the pair scan finds nothing. -/
theorem mergeLoopAux_spec :
    ∀ fuel (l : List Glyph), l.length ≤ fuel →
      (mergeLoopAux fuel l).Pairwise (fun a b => a.y ≤ b.y) ∧
        findMergePair (mergeLoopAux fuel l) = none := by
  intro fuel
  induction fuel with
  | zero =>
    intro l hl
    obtain rfl : l = [] := List.length_eq_zero.mp (Nat.le_zero.mp hl)
    refine ⟨?_, ?_⟩
    · simpa [mergeLoopAux] using sortByY_sorted []
    · simp [mergeLoopAux, sortByY, findMergePair]
  | succ n ih =>
    intro l hl
    simp only [mergeLoopAux]
    cases h : findMergePair (sortByY l) with
    | none => exact ⟨sortByY_sorted l, h⟩
    | some p =>
      obtain ⟨i, j⟩ := p
      have hj := (findMergePair_some h).2.1
      apply ih
      have hlen := applyMerge_length (l := sortByY l) (i := i) hj
      rw [sortByY_length] at hj
      rw [hlen, sortByY_length]
      omega

/-- C6: the blob-merge fixed-point loop is idempotent — run on its own
output, the pair scan performs zero merges and the list is returned
unchanged. -/
theorem mergeLoop_idempotent (l : List Glyph) :
    mergeLoop (mergeLoop l) = mergeLoop l ∧
      findMergePair (sortByY (mergeLoop l)) = none := by
  obtain ⟨hs, hn⟩ := mergeLoopAux_spec l.length l (le_refl _)
  have hs' : (mergeLoop l).Pairwise (fun a b => a.y ≤ b.y) := hs
  have hn' : findMergePair (mergeLoop l) = none := hn
  have hsort : sortByY (mergeLoop l) = mergeLoop l := sortByY_of_sorted hs'
  refine ⟨?_, by rw [hsort]; exact hn'⟩
  show mergeLoopAux (mergeLoop l).length (mergeLoop l) = mergeLoop l
  cases hlen : (mergeLoop l).length with
  | zero =>
    obtain he : mergeLoop l = [] := List.length_eq_zero.mp hlen
    rw [he]
    simp [mergeLoopAux, sortByY]
  | succ n =>
    simp only [mergeLoopAux]
    rw [hsort, hn']

/-- A running fold of `min` over member `y`s is a lower bound of its seed. -/
theorem foldl_min_le_init (l : List Glyph) :
    ∀ a : Int, l.foldl (fun m g => min m g.y) a ≤ a := by
  induction l with
  | nil => intro a; simp
  | cons g rest ih =>
    intro a
    calc rest.foldl (fun m g => min m g.y) (min a g.y) ≤ min a g.y := ih _
      _ ≤ a := min_le_left _ _

/-- A running fold of `min` over member `y`s bounds every member. -/
theorem foldl_min_le_mem (l : List Glyph) :
    ∀ (a : Int), ∀ g ∈ l, l.foldl (fun m h => min m h.y) a ≤ g.y := by
  induction l with
  | nil => simp
  | cons g rest ih =>
    intro a g' hg'
    rcases List.mem_cons.mp hg' with rfl | hmem
    · calc rest.foldl (fun m h => min m h.y) (min a g'.y) ≤ min a g'.y :=
        foldl_min_le_init rest _
        _ ≤ g'.y := min_le_right _ _
    · exact ih _ g' hmem

/-- A running fold of `min` over member `y`s is attained. -/
theorem foldl_min_attained (l : List Glyph) :
    ∀ a : Int, l.foldl (fun m g => min m g.y) a = a ∨
      ∃ g ∈ l, l.foldl (fun m h => min m h.y) a = g.y := by
  induction l with
  | nil => intro a; simp
  | cons g rest ih =>
    intro a
    rcases ih (min a g.y) with h | ⟨g', hg', h⟩
    · rcases min_cases a g.y with ⟨he, _⟩ | ⟨he, _⟩
      · left
        simpa [List.foldl_cons, he] using h
      · right
        exact ⟨g, List.mem_cons_self g rest, by simpa [List.foldl_cons, he] using h⟩
    · right
      exact ⟨g', List.mem_cons_of_mem g hg', by simpa [List.foldl_cons] using h⟩

/-- The row minimum bounds every member's `y`. -/
theorem rowMinY_le {row : List Glyph} {g : Glyph} (hg : g ∈ row) :
    rowMinY row ≤ g.y := by
  cases row with
  | nil => cases hg
  | cons g0 rest =>
    rcases List.mem_cons.mp hg with rfl | hmem
    · exact foldl_min_le_init rest _
    · exact foldl_min_le_mem rest _ g hmem

/-- The row minimum is attained by some member. -/
theorem rowMinY_attained {row : List Glyph} (h : row ≠ []) :
    ∃ g ∈ row, g.y = rowMinY row := by
  cases row with
  | nil => exact absurd rfl h
  | cons g0 rest =>
    rcases foldl_min_attained rest g0.y with he | ⟨g', hg', he⟩
    · exact ⟨g0, List.mem_cons_self g0 rest, by simp [rowMinY, he]⟩
    · exact ⟨g', List.mem_cons_of_mem g0 hg', by simp [rowMinY, he]⟩

/-- Membership in a processed row. -/
theorem mem_processRow {row : List Glyph} {g' : Glyph} :
    g' ∈ processRow row ↔
      ∃ g ∈ row, g' = { g with yoffset := g.y - rowMinY row } := by
  simp only [processRow, List.mem_map, List.mem_mergeSort]
  constructor
  · rintro ⟨g, hg, rfl⟩
    exact ⟨g, hg, rfl⟩
  · rintro ⟨g, hg, rfl⟩
    exact ⟨g, hg, rfl⟩

/-- Every row emitted by the row-building pass is nonempty. -/
theorem buildRowsAux_ne_nil :
    ∀ (rest : List Glyph) (rows : List (List Glyph)) (cur : List Glyph)
      (a b : Int), (∀ r ∈ rows, r ≠ []) → cur ≠ [] →
      ∀ r ∈ buildRowsAux rest rows cur a b, r ≠ [] := by
  intro rest
  induction rest with
  | nil =>
    intro rows cur a b hrows hcur r hr
    have hr' : r ∈ rows ∨ r = cur := by simpa [buildRowsAux] using hr
    rcases hr' with h | rfl
    · exact hrows r h
    · exact hcur
  | cons g rest ih =>
    intro rows cur a b hrows hcur r hr
    simp only [buildRowsAux] at hr
    split at hr
    · exact ih rows (cur ++ [g]) _ _ hrows (by simp) r hr
    · refine ih (rows ++ [cur]) [g] _ _ ?_ (by simp) r hr
      intro r' hr'
      rcases List.mem_append.mp hr' with h | h
      · exact hrows r' h
      · rw [List.mem_singleton.mp h]; exact hcur

/-- Every member of every row of `buildRows` is nonempty. -/
theorem buildRows_ne_nil {l : List Glyph} :
    ∀ r ∈ buildRows l, r ≠ [] := by
  cases l with
  | nil => simp [buildRows]
  | cons g rest =>
    exact buildRowsAux_ne_nil rest [] [g] g.y g.height (by simp) (by simp)

/-- C7: for a nonempty glyph list, row organization gives every glyph a
nonnegative `yoffset` (namely `g.y` minus its row's minimum `y`), and inside
every row the minimum `yoffset` is zero. -/
theorem row_offset_invariant (l : List Glyph) (hne : l ≠ []) :
    (∀ g ∈ organizeRows l, 0 ≤ g.yoffset) ∧
      ∀ row ∈ buildRows (l.mergeSort initialSortLE),
        (∀ g ∈ processRow row, 0 ≤ g.yoffset ∧
          ∃ g0 ∈ row, g = { g0 with yoffset := g0.y - rowMinY row }) ∧
        ∃ g ∈ processRow row, g.yoffset = 0 := by
  have hrow : ∀ row ∈ buildRows (l.mergeSort initialSortLE),
      (∀ g ∈ processRow row, 0 ≤ g.yoffset ∧
        ∃ g0 ∈ row, g = { g0 with yoffset := g0.y - rowMinY row }) ∧
      ∃ g ∈ processRow row, g.yoffset = 0 := by
    intro row hrowmem
    constructor
    · intro g hg
      obtain ⟨g0, hg0, rfl⟩ := mem_processRow.mp hg
      refine ⟨?_, g0, hg0, rfl⟩
      have := rowMinY_le hg0
      simp only []
      omega
    · obtain ⟨g0, hg0, hmin⟩ :=
        rowMinY_attained (buildRows_ne_nil row hrowmem)
      refine ⟨{ g0 with yoffset := g0.y - rowMinY row }, ?_, by simp [hmin]⟩
      exact mem_processRow.mpr ⟨g0, hg0, rfl⟩
  refine ⟨?_, hrow⟩
  intro g hg
  simp only [organizeRows, List.mem_flatten, List.mem_map] at hg
  obtain ⟨_, ⟨row, hrowmem, rfl⟩, hgrow⟩ := hg
  exact ((hrow row hrowmem).1 g hgrow).1

/-- Witness for C7 at a concrete one-glyph list. -/
theorem row_offset_invariant_witness :
    ([defaultGlyph] : List Glyph) ≠ [] ∧
      ((∀ g ∈ organizeRows [defaultGlyph], 0 ≤ g.yoffset) ∧
        ∀ row ∈ buildRows (([defaultGlyph] : List Glyph).mergeSort initialSortLE),
          (∀ g ∈ processRow row, 0 ≤ g.yoffset ∧
            ∃ g0 ∈ row, g = { g0 with yoffset := g0.y - rowMinY row }) ∧
          ∃ g ∈ processRow row, g.yoffset = 0) :=
  ⟨by simp, row_offset_invariant [defaultGlyph] (by simp)⟩

/-- Every blob pushed by the raster scan carries `xadvance = width + 1`. -/
theorem scanPixels_xadvance (img : ImageData) (bgR bgG bgB bgA : Nat) :
    ∀ (coords : List (Nat × Nat)) (visited : List Bool) (counter : Int)
      (acc : List Glyph), (∀ g ∈ acc, g.xadvance = g.width + 1) →
      ∀ g ∈ scanPixels img bgR bgG bgB bgA coords visited counter acc,
        g.xadvance = g.width + 1 := by
  intro coords
  induction coords with
  | nil => intro visited counter acc hacc g hg; exact hacc g hg
  | cons c rest ih =>
    obtain ⟨x, y⟩ := c
    intro visited counter acc hacc g hg
    simp only [scanPixels] at hg
    split at hg
    · exact ih _ _ _ hacc g hg
    · split at hg
      · split at hg
        · refine ih _ _ _ ?_ g hg
          intro g' hg'
          rcases List.mem_append.mp hg' with h | h
          · exact hacc g' h
          · rw [List.mem_singleton.mp h]
        · exact ih _ _ _ hacc g hg
      · exact ih _ _ _ hacc g hg

/-- The merged record carries `xadvance = width + 1`. -/
theorem mergeBoxes_xadvance (g1 g2 : Glyph) :
    (mergeBoxes g1 g2).xadvance = (mergeBoxes g1 g2).width + 1 := by
  simp [mergeBoxes]

/-- One merge step preserves the `xadvance = width + 1` invariant. -/
theorem applyMerge_xadvance {l : List Glyph} {i j : Nat}
    (h : ∀ g ∈ l, g.xadvance = g.width + 1) :
    ∀ g ∈ applyMerge l i j, g.xadvance = g.width + 1 := by
  intro g hg
  have hset : g ∈ l.set i (mergeBoxes (l.getD i defaultGlyph) (l.getD j defaultGlyph)) :=
    (List.eraseIdx_sublist _ j).mem hg
  rcases List.mem_or_eq_of_mem_set hset with hmem | rfl
  · exact h g hmem
  · exact mergeBoxes_xadvance _ _

/-- The merge fixed-point loop preserves the invariant. -/
theorem mergeLoopAux_xadvance :
    ∀ (fuel : Nat) (l : List Glyph), (∀ g ∈ l, g.xadvance = g.width + 1) →
      ∀ g ∈ mergeLoopAux fuel l, g.xadvance = g.width + 1 := by
  intro fuel
  induction fuel with
  | zero =>
    intro l h g hg
    exact h g (by simpa [mergeLoopAux, sortByY] using hg)
  | succ n ih =>
    intro l h g hg
    have hsorted : ∀ g ∈ sortByY l, g.xadvance = g.width + 1 := by
      intro g' hg'
      exact h g' (by simpa [sortByY] using hg')
    simp only [mergeLoopAux] at hg
    split at hg
    · exact hsorted g hg
    · exact ih _ (applyMerge_xadvance hsorted) g hg

/-- Row membership under the row-building pass is inherited from the open
row, the remaining glyphs and the closed rows. -/
theorem buildRowsAux_mem (Q : Glyph → Prop) :
    ∀ (rest : List Glyph) (rows : List (List Glyph)) (cur : List Glyph)
      (a b : Int), (∀ g ∈ cur, Q g) → (∀ g ∈ rest, Q g) →
      (∀ r ∈ rows, ∀ g ∈ r, Q g) →
      ∀ r ∈ buildRowsAux rest rows cur a b, ∀ g ∈ r, Q g := by
  intro rest
  induction rest with
  | nil =>
    intro rows cur a b hcur _ hrows r hr
    have hr' : r ∈ rows ∨ r = cur := by simpa [buildRowsAux] using hr
    rcases hr' with h | rfl
    · exact hrows r h
    · exact hcur
  | cons g0 rest ih =>
    intro rows cur a b hcur hrest hrows r hr
    simp only [buildRowsAux] at hr
    split at hr
    · refine ih rows (cur ++ [g0]) _ _ ?_ ?_ hrows r hr
      · intro g' hg'
        rcases List.mem_append.mp hg' with h | h
        · exact hcur g' h
        · rw [List.mem_singleton.mp h]; exact hrest g0 (by simp)
      · intro g' hg'; exact hrest g' (List.mem_cons_of_mem g0 hg')
    · refine ih (rows ++ [cur]) [g0] _ _ ?_ ?_ ?_ r hr
      · intro g' hg'
        rw [List.mem_singleton.mp hg']
        exact hrest g0 (by simp)
      · intro g' hg'; exact hrest g' (List.mem_cons_of_mem g0 hg')
      · intro r' hr'
        rcases List.mem_append.mp hr' with h | h
        · exact hrows r' h
        · rw [List.mem_singleton.mp h]; exact hcur

/-- Row organization only rewrites `yoffset`, so it preserves any predicate
insensitive to `yoffset`; specialized here to the advance invariant. -/
theorem organizeRows_xadvance {l : List Glyph}
    (h : ∀ g ∈ l, g.xadvance = g.width + 1) :
    ∀ g ∈ organizeRows l, g.xadvance = g.width + 1 := by
  intro g hg
  simp only [organizeRows, List.mem_flatten, List.mem_map] at hg
  obtain ⟨_, ⟨row, hrowmem, rfl⟩, hgrow⟩ := hg
  obtain ⟨g0, hg0, rfl⟩ := mem_processRow.mp hgrow
  have hsort : ∀ g' ∈ l.mergeSort initialSortLE, g'.xadvance = g'.width + 1 := by
    intro g' hg'
    exact h g' (List.mem_mergeSort.mp hg')
  cases hl : l.mergeSort initialSortLE with
  | nil =>
    rw [hl] at hrowmem
    simp [buildRows] at hrowmem
  | cons ghead gtail =>
    rw [hl] at hrowmem hsort
    have := buildRowsAux_mem (fun g' => g'.xadvance = g'.width + 1)
      gtail [] [ghead] ghead.y ghead.height
      (by intro g' hg'; rw [List.mem_singleton.mp hg']; exact hsort ghead (by simp))
      (by intro g' hg'; exact hsort g' (List.mem_cons_of_mem ghead hg'))
      (by simp)
      row hrowmem g0 hg0
    simpa using this

/-- C10: every glyph produced by the detection pipeline satisfies
`xadvance = width + 1`, set at blob creation and re-established by every
merge. -/
theorem detect_xadvance (img : ImageData) :
    ∀ g ∈ detectGlyphs img, g.xadvance = g.width + 1 := by
  intro g hg
  have hraw : ∀ g' ∈ extractBlobs img, g'.xadvance = g'.width + 1 :=
    scanPixels_xadvance img _ _ _ _ _ _ _ [] (by simp)
  have hmerged : ∀ g' ∈ mergeLoop (extractBlobs img),
      g'.xadvance = g'.width + 1 :=
    mergeLoopAux_xadvance _ _ hraw
  exact organizeRows_xadvance hmerged g hg

/-- Witness for C10: the pipeline on `witnessImage` yields `witnessGlyph`,
whose advance is its width plus one. -/
theorem detect_xadvance_witness :
    witnessGlyph ∈ detectGlyphs witnessImage ∧
      witnessGlyph.xadvance = witnessGlyph.width + 1 := by
  have h1 : extractBlobs witnessImage = [witnessGlyph] := by decide
  have hf : findMergePair [witnessGlyph] = none := by decide
  have h2 : mergeLoop [witnessGlyph] = [witnessGlyph] := by
    simp [mergeLoop, mergeLoopAux, sortByY, List.mergeSort_singleton, hf]
  have h3 : organizeRows [witnessGlyph] = [witnessGlyph] := by
    simp [organizeRows, List.mergeSort_singleton, buildRows, buildRowsAux,
      processRow, rowMinY, witnessGlyph]
  have hmem : witnessGlyph ∈ detectGlyphs witnessImage := by
    rw [detectGlyphs, h1, h2, h3]
    simp
  exact ⟨hmem, detect_xadvance witnessImage witnessGlyph hmem⟩

/-- `packStep` when the item does not fit in the current row. -/
theorem packStep_break {tW : Int} {st : PackState} {it : PackItem}
    (h : tW < st.x + it.w + 2) :
    packStep tW st it =
      ⟨2 + it.w + 2, st.y + st.rowH + 2, max 0 it.h,
        st.placed ++ [⟨it, 2, st.y + st.rowH + 2⟩]⟩ := by
  simp [packStep, h]

/-- `packStep` when the item fits in the current row. -/
theorem packStep_fit {tW : Int} {st : PackState} {it : PackItem}
    (h : ¬tW < st.x + it.w + 2) :
    packStep tW st it =
      ⟨st.x + it.w + 2, st.y, max st.rowH it.h,
        st.placed ++ [⟨it, st.x, st.y⟩]⟩ := by
  simp [packStep, h]

/-- One layout step preserves the shelf-packing invariant (for an item of
positive width). -/
theorem packStep_inv {tW : Int} {st : PackState} {it : PackItem}
    (hw : 0 < it.w) (hinv : PackInv st) : PackInv (packStep tW st it) := by
  obtain ⟨hx, hy, hrh, hok, hpair⟩ := hinv
  simp only [PlacedOk] at hok
  by_cases hbr : tW < st.x + it.w + 2
  · rw [packStep_break hbr]
    simp only [PackInv, PlacedOk]
    refine ⟨by omega, by omega, le_max_left 0 it.h, ?_, ?_⟩
    · intro p hp
      rcases List.mem_append.mp hp with hp | hp
      · left
        rcases hok p hp with h | ⟨h1, _, h3⟩ <;> omega
      · rw [List.mem_singleton.mp hp]
        right
        exact ⟨rfl, le_refl _, le_max_right 0 it.h⟩
    · rw [List.pairwise_append]
      refine ⟨hpair, List.pairwise_singleton _ _, ?_⟩
      intro p hp q hq
      rw [List.mem_singleton.mp hq]
      rintro ⟨_, h2⟩
      simp only [placedIntersect] at h2
      rcases hok p hp with h | ⟨h1, _, h3⟩ <;> omega
  · rw [packStep_fit hbr]
    simp only [PackInv, PlacedOk]
    refine ⟨by omega, hy, le_trans hrh (le_max_left _ _), ?_, ?_⟩
    · intro p hp
      rcases List.mem_append.mp hp with hp | hp
      · rcases hok p hp with h | ⟨h1, h2, h3⟩
        · left; exact h
        · right
          exact ⟨h1, by omega, le_trans h3 (le_max_left _ _)⟩
      · rw [List.mem_singleton.mp hp]
        right
        exact ⟨rfl, le_refl _, le_max_right _ _⟩
    · rw [List.pairwise_append]
      refine ⟨hpair, List.pairwise_singleton _ _, ?_⟩
      intro p hp q hq
      rw [List.mem_singleton.mp hq]
      rintro ⟨h1, h2⟩
      simp only [placedIntersect] at h1 h2
      rcases hok p hp with h | ⟨ha, hb, _⟩ <;> omega

/-- The whole layout run preserves the invariant. -/
theorem packFold_inv (tW : Int) :
    ∀ (items : List PackItem) (st : PackState), (∀ it ∈ items, 0 < it.w) →
      PackInv st → PackInv (items.foldl (packStep tW) st) := by
  intro items
  induction items with
  | nil => intro st _ h; exact h
  | cons it rest ih =>
    intro st hpos h
    exact ih _ (fun x hx => hpos x (List.mem_cons_of_mem it hx))
      (packStep_inv (hpos it (by simp)) h)

/-- The layout starts from an invariant-satisfying state, so it ends in one.
-/
theorem packLayout_inv (tW : Int) (items : List PackItem)
    (hpos : ∀ it ∈ items, 0 < it.w) : PackInv (packLayout tW items) :=
  packFold_inv tW items ⟨2, 2, 0, []⟩ hpos
    ⟨le_refl _, le_refl _, le_refl _, by simp, List.Pairwise.nil⟩

/-- Items of placed entries all come from the input item list. -/
theorem packFold_items (tW : Int) (Q : PackItem → Prop) :
    ∀ (items : List PackItem) (st : PackState), (∀ it ∈ items, Q it) →
      (∀ p ∈ st.placed, Q p.item) →
      ∀ p ∈ (items.foldl (packStep tW) st).placed, Q p.item := by
  intro items
  induction items with
  | nil => intro st _ h; exact h
  | cons it rest ih =>
    intro st hitems h
    refine ih _ (fun x hx => hitems x (List.mem_cons_of_mem it hx)) ?_
    intro p hp
    by_cases hbr : tW < st.x + it.w + 2
    · rw [packStep_break hbr] at hp
      rcases List.mem_append.mp hp with hp | hp
      · exact h p hp
      · rw [List.mem_singleton.mp hp]; exact hitems it (by simp)
    · rw [packStep_fit hbr] at hp
      rcases List.mem_append.mp hp with hp | hp
      · exact h p hp
      · rw [List.mem_singleton.mp hp]; exact hitems it (by simp)

/-- The width-doubling loop keeps the width a power of two, at least 128. -/
theorem growWidthAux_spec :
    ∀ (fuel target side : Nat), (∃ k, target = 2 ^ k) → 128 ≤ target →
      (∃ k, growWidthAux fuel target side = 2 ^ k) ∧
        128 ≤ growWidthAux fuel target side := by
  intro fuel
  induction fuel with
  | zero => intro target side hpow h128; exact ⟨hpow, h128⟩
  | succ n ih =>
    intro target side hpow h128
    simp only [growWidthAux]
    split
    · refine ih (target * 2) side ?_ (by omega)
      obtain ⟨k, rfl⟩ := hpow
      exact ⟨k + 1, by ring⟩
    · exact ⟨hpow, h128⟩

/-- The chosen atlas width is a power of two and at least 128. -/
theorem targetWidthOf_spec (side : Nat) :
    (∃ k, targetWidthOf side = 2 ^ k) ∧ 128 ≤ targetWidthOf side :=
  growWidthAux_spec side 128 side ⟨7, rfl⟩ (le_refl _)

/-- Glyph rectangle intersection is symmetric. -/
theorem rectsIntersect_symm {a b : Glyph} (h : rectsIntersect a b) :
    rectsIntersect b a := by
  obtain ⟨h1, h2⟩ := h
  exact ⟨by omega, by omega⟩

/-- Facts about every item built from a positive-dimension glyph list. -/
theorem sortItems_packItems_mem {glyphs : List Glyph}
    (hpos : ∀ g ∈ glyphs, 0 < g.width ∧ 0 < g.height) :
    ∀ it ∈ sortItems (packItems glyphs),
      it.originalGlyph ∈ glyphs ∧ it.w = it.originalGlyph.width ∧
        it.h = it.originalGlyph.height ∧ 0 < it.w := by
  intro it hit
  have hmem : it ∈ packItems glyphs := List.mem_mergeSort.mp hit
  obtain ⟨g, hg, rfl⟩ := List.mem_map.mp hmem
  exact ⟨hg, rfl, rfl, (hpos g hg).1⟩

/-- C1: for every glyph list satisfying the data-model invariant
(`width > 0`, `height > 0`), `packTexture` yields an atlas whose width is a
power of two at least 128, whose placed rectangles are pairwise disjoint, and
whose every output glyph keeps the width and height of the input glyph with
its id. -/
theorem packTexture_correct (glyphs : List Glyph)
    (hpos : ∀ g ∈ glyphs, 0 < g.width ∧ 0 < g.height) :
    (∃ k, (packTexture glyphs).width = 2 ^ k) ∧
      128 ≤ (packTexture glyphs).width ∧
      ((packTexture glyphs).glyphs.Pairwise fun a b => ¬rectsIntersect a b) ∧
      ∀ g ∈ (packTexture glyphs).glyphs, ∃ g0 ∈ glyphs,
        g0.id = g.id ∧ g0.width = g.width ∧ g0.height = g.height := by
  have hitem := sortItems_packItems_mem hpos
  simp only [packTexture]
  refine ⟨(targetWidthOf_spec _).1, (targetWidthOf_spec _).2, ?_, ?_⟩
  · have hinv := packLayout_inv
      (targetWidthOf (sideOf (totalAreaOf (sortItems (packItems glyphs)))) : Int)
      (sortItems (packItems glyphs)) (fun it hit => (hitem it hit).2.2.2)
    have hpairwise := hinv.2.2.2.2
    have hQ := packFold_items
      (targetWidthOf (sideOf (totalAreaOf (sortItems (packItems glyphs)))) : Int)
      (fun it => it.w = it.originalGlyph.width ∧ it.h = it.originalGlyph.height)
      (sortItems (packItems glyphs)) ⟨2, 2, 0, []⟩
      (fun it hit => ⟨(hitem it hit).2.1, (hitem it hit).2.2.1⟩) (by simp)
    rw [List.Perm.pairwise_iff (fun h => mt rectsIntersect_symm h)
      (List.mergeSort_perm _ _)]
    rw [List.pairwise_map]
    refine List.Pairwise.imp_of_mem ?_ hpairwise
    intro p q hp hq hnot hint
    apply hnot
    obtain ⟨hpw, hph⟩ := hQ p hp
    obtain ⟨hqw, hqh⟩ := hQ q hq
    obtain ⟨h1, h2⟩ := hint
    simp only [rectsIntersect] at h1 h2
    exact ⟨by omega, by omega⟩
  · intro g hg
    have hmem : g ∈ (packLayout
        (targetWidthOf (sideOf (totalAreaOf (sortItems (packItems glyphs)))) : Int)
        (sortItems (packItems glyphs))).placed.map
          (fun p => { p.item.originalGlyph with x := p.newX, y := p.newY }) :=
      List.mem_mergeSort.mp hg
    obtain ⟨p, hp, rfl⟩ := List.mem_map.mp hmem
    have hQ := packFold_items
      (targetWidthOf (sideOf (totalAreaOf (sortItems (packItems glyphs)))) : Int)
      (fun it => it.originalGlyph ∈ glyphs)
      (sortItems (packItems glyphs)) ⟨2, 2, 0, []⟩
      (fun it hit => (hitem it hit).1) (by simp)
    exact ⟨p.item.originalGlyph, hQ p hp, rfl, rfl, rfl⟩

/-- Witness for C1 at a concrete one-glyph list. -/
theorem packTexture_correct_witness :
    (∀ g ∈ [specStem], 0 < g.width ∧ 0 < g.height) ∧
      ((∃ k, (packTexture [specStem]).width = 2 ^ k) ∧
        128 ≤ (packTexture [specStem]).width ∧
        ((packTexture [specStem]).glyphs.Pairwise fun a b => ¬rectsIntersect a b) ∧
        ∀ g ∈ (packTexture [specStem]).glyphs, ∃ g0 ∈ [specStem],
          g0.id = g.id ∧ g0.width = g.width ∧ g0.height = g.height) :=
  ⟨by decide, packTexture_correct [specStem] (by decide)⟩

/-- C9: packed placements are not guaranteed to stay inside the atlas
horizontally — on the one-glyph list `[wideGlyph]` (width 200, exceeding the
atlas width minus twice the 2-pixel padding), `packTexture` chooses atlas
width 128 yet places the glyph at `x = 2` with `2 + 200 > 128`. -/
theorem packTexture_width_overflow :
    (packTexture [wideGlyph]).width = 128 ∧
      (packTexture [wideGlyph]).glyphs = [{ wideGlyph with x := 2, y := 4 }] ∧
      wideGlyph.width > 128 - 2 * 2 ∧
      (2 : Int) + wideGlyph.width > ((packTexture [wideGlyph]).width : Int) := by
  have h : packTexture [wideGlyph] = ⟨[{ wideGlyph with x := 2, y := 4 }], 128, 7⟩ := by
    simp [packTexture, sortItems, packItems, List.mergeSort_singleton,
      totalAreaOf, packLayout, packStep, targetWidthOf,
      show sideOf (200 : Int) = 15 by decide, growWidthAux, wideGlyph]
  rw [h]
  refine ⟨rfl, rfl, by decide, by decide⟩

/-- C3 counterexample: on 51 images the first batch of 50 succeeds and labels
index 0 with "A", the second batch fails — yet the handler returns the glyph
list unchanged, so the label obtained from the successful batch is not
retained anywhere. -/
theorem identify_partial_labels_lost :
    badIdentify ((List.replicate 51 "").take 50) = .ok [(0, "A")] ∧
      handleIdentifyChars badIdentify (List.replicate 51 "")
        (List.replicate 51 defaultGlyph) = List.replicate 51 defaultGlyph ∧
      ∀ g ∈ handleIdentifyChars badIdentify (List.replicate 51 "")
        (List.replicate 51 defaultGlyph), g.char ≠ "A" :=
  ⟨rfl, by decide, by decide⟩

/-- C3 (amended): when any identification batch fails, the remaining batches
are aborted and the labels already obtained from prior successful batches are
discarded with them — the glyph list is returned unchanged. -/
theorem identify_batch_failure_keeps_glyphs
    (identify : List String → Except Unit (List (Nat × String)))
    (images : List String) (glyphs : List Glyph) (e : Unit)
    (h : runBatches identify images = .error e) :
    handleIdentifyChars identify images glyphs = glyphs := by
  simp [handleIdentifyChars, h]

/-- Witness for the amended C3 at the concrete failing service. -/
theorem identify_batch_failure_keeps_glyphs_witness :
    runBatches badIdentify (List.replicate 51 "") = .error () ∧
      handleIdentifyChars badIdentify (List.replicate 51 "")
        (List.replicate 51 defaultGlyph) = List.replicate 51 defaultGlyph :=
  ⟨rfl, identify_batch_failure_keeps_glyphs badIdentify (List.replicate 51 "")
    (List.replicate 51 defaultGlyph) () rfl⟩

/-- `Nat.digitChar` of a digit is a digit character. -/
theorem digitChar_isDigit {n : Nat} (h : n < 10) : (Nat.digitChar n).isDigit := by
  interval_cases n <;> decide

/-- `Nat.digitChar` inverts to its digit. -/
theorem digitChar_toNat {n : Nat} (h : n < 10) : (Nat.digitChar n).toNat - 48 = n := by
  interval_cases n <;> decide

/-- Every character emitted by the decimal printer is a digit. -/
theorem natDecAux_digits :
    ∀ fuel n, ∀ c ∈ natDecAux fuel n, c.isDigit := by
  intro fuel
  induction fuel with
  | zero => intro n c hc; simp [natDecAux] at hc
  | succ m ih =>
    intro n c hc
    simp only [natDecAux] at hc
    split at hc
    · rw [List.mem_singleton.mp hc]
      exact digitChar_isDigit (by omega)
    · rcases List.mem_append.mp hc with h | h
      · exact ih _ c h
      · rw [List.mem_singleton.mp h]
        exact digitChar_isDigit (Nat.mod_lt _ (by omega))

/-- The digit folder distributes over concatenation. -/
theorem parseNatAux_append (xs ys : List Char) :
    ∀ acc, parseNatAux (xs ++ ys) acc =
      match parseNatAux xs acc with
      | some a => parseNatAux ys a
      | none => none := by
  induction xs with
  | nil => intro acc; simp [parseNatAux]
  | cons c rest ih =>
    intro acc
    simp only [List.cons_append, parseNatAux]
    split
    · exact ih _
    · rfl

/-- The digit folder inverts the decimal printer on any accumulator. -/
theorem parseNatAux_natDecAux :
    ∀ fuel n acc, n < fuel →
      parseNatAux (natDecAux fuel n) acc =
        some (acc * 10 ^ (natDecAux fuel n).length + n) := by
  intro fuel
  induction fuel with
  | zero => intro n acc h; omega
  | succ m ih =>
    intro n acc h
    simp only [natDecAux]
    split
    case isTrue hlt =>
      simp [parseNatAux, digitChar_isDigit hlt, digitChar_toNat hlt]
    case isFalse hge =>
      have hrec : n / 10 < m := by omega
      rw [parseNatAux_append]
      rw [ih (n / 10) acc hrec]
      have hd : n % 10 < 10 := Nat.mod_lt _ (by omega)
      simp only [parseNatAux, digitChar_isDigit hd, if_pos]
      rw [List.length_append, List.length_singleton]
      congr 1
      rw [digitChar_toNat hd]
      rw [pow_succ]
      have := Nat.div_add_mod n 10
      ring_nf
      omega

/-- The decimal printer never emits the empty string. -/
theorem natDecAux_ne_nil (fuel n : Nat) (h : n < fuel) :
    natDecAux fuel n ≠ [] := by
  cases fuel with
  | zero => omega
  | succ m =>
    simp only [natDecAux]
    split
    · simp
    · simp

/-- Parsing inverts the natural-number decimal printer. -/
theorem parseNatL_natDec (n : Nat) : parseNatL (natDec n) = some n := by
  have hne : natDec n ≠ [] := natDecAux_ne_nil (n + 1) n (by omega)
  cases he : natDec n with
  | nil => exact absurd he hne
  | cons c rest =>
    have hp : parseNatAux (natDec n) 0 = some (0 * 10 ^ (natDec n).length + n) :=
      parseNatAux_natDecAux (n + 1) n 0 (by omega)
    rw [he] at hp
    simpa [parseNatL] using hp

/-- Every character of a printed integer is a digit or the minus sign. -/
theorem jsIntString_chars (v : Int) :
    ∀ c ∈ (jsIntString v).data, c.isDigit ∨ c = '-' := by
  intro c hc
  simp only [jsIntString] at hc
  split at hc
  · have hm : c ∈ ('-' :: natDec v.natAbs) := hc
    rcases List.mem_cons.mp hm with rfl | h
    · right; rfl
    · left; exact natDecAux_digits _ _ c h
  · left; exact natDecAux_digits _ _ c hc

/-- Parsing inverts the integer printer. -/
theorem parseIntL_jsIntString (v : Int) :
    parseIntL (jsIntString v).data = some v := by
  by_cases hv : v < 0
  · have hd : (jsIntString v).data = '-' :: natDec v.natAbs := by
      simp [jsIntString, hv]
    rw [hd]
    simp [parseIntL, parseNatL_natDec, abs_of_neg hv]
  · have hdata : (jsIntString v).data = natDec v.toNat := by
      simp [jsIntString, hv]
    cases he : natDec v.toNat with
    | nil => exact absurd he (natDecAux_ne_nil _ _ (by omega))
    | cons c rest =>
      have hmem : c ∈ natDec v.toNat := by
        rw [he]
        exact List.mem_cons_self c rest
      have hcd : c.isDigit := natDecAux_digits (v.toNat + 1) v.toNat c hmem
      have hcne : ¬c = '-' := by
        intro hcc
        rw [hcc] at hcd
        simp [Char.isDigit] at hcd
      have hp := parseNatL_natDec v.toNat
      rw [he] at hp
      rw [hdata, he]
      simp [parseIntL, if_neg hcne, hp]
      omega

/-- Splitting strips a leading separator-free token. -/
theorem splitOn_sep_cons {sep : Char} (tok rest : List Char) (h : sep ∉ tok) :
    (tok ++ sep :: rest).splitOn sep = tok :: rest.splitOn sep := by
  simp only [List.splitOn]
  exact List.splitOnP_first _ tok
    (fun x hx => by simp only [beq_iff_eq]; exact fun he => h (he ▸ hx))
    sep (by simp) rest

/-- Splitting a separator-free token is the identity. -/
theorem splitOn_sep_single {sep : Char} (tok : List Char) (h : sep ∉ tok) :
    tok.splitOn sep = [tok] := by
  simp only [List.splitOn]
  exact List.splitOnP_eq_single _ _
    (fun x hx => by simp only [beq_iff_eq]; exact fun he => h (he ▸ hx))

/-- Printed integers contain no blank. -/
theorem space_notin_jsIntString (v : Int) : ' ' ∉ (jsIntString v).data := by
  intro h
  rcases jsIntString_chars v ' ' h with hd | he
  · exact absurd hd (by decide)
  · exact absurd he (by decide)

/-- Printed integers contain no equals sign. -/
theorem eq_notin_jsIntString (v : Int) : '=' ∉ (jsIntString v).data := by
  intro h
  rcases jsIntString_chars v '=' h with hd | he
  · exact absurd hd (by decide)
  · exact absurd he (by decide)

/-- Parsing a well-formed `key=value` token recovers the value. -/
theorem parseKV_mk (key : String) (v : Int) (hk : '=' ∉ key.data) :
    parseKV key (key.data ++ '=' :: (jsIntString v).data) = some v := by
  unfold parseKV
  rw [splitOn_sep_cons key.data _ hk,
    splitOn_sep_single _ (eq_notin_jsIntString v)]
  simp [parseIntL_jsIntString]

/-- The characters of a `char` line, grouped at the blanks. -/
theorem charLine_data (t : Int) (g : Glyph) :
    (charLine t g).data =
      "char".data ++ ' ' ::
        (("id".data ++ '=' :: (jsIntString (charIdOf g.char)).data) ++ ' ' ::
        (("x".data ++ '=' :: (jsIntString g.x).data) ++ ' ' ::
        (("y".data ++ '=' :: (jsIntString g.y).data) ++ ' ' ::
        (("width".data ++ '=' :: (jsIntString g.width).data) ++ ' ' ::
        (("height".data ++ '=' :: (jsIntString g.height).data) ++ ' ' ::
        (("xoffset".data ++ '=' :: (jsIntString g.xoffset).data) ++ ' ' ::
        (("yoffset".data ++ '=' :: (jsIntString g.yoffset).data) ++ ' ' ::
        (("xadvance".data ++ '=' :: (jsIntString (g.xadvance + t)).data) ++ ' ' ::
        ("page=0".data ++ ' ' :: "chnl=15".data))))))))) := by
  simp [charLine, String.data_append, List.append_assoc]

/-- A `key=value` token contains no blank. -/
theorem space_notin_kv (key : String) (v : Int) (hk : ' ' ∉ key.data) :
    ' ' ∉ key.data ++ '=' :: (jsIntString v).data := by
  intro h
  rcases List.mem_append.mp h with h | h
  · exact hk h
  · rcases List.mem_cons.mp h with he | h
    · exact absurd he (by decide)
    · exact space_notin_jsIntString v h

/-- Splitting a `char` line at blanks yields its eleven tokens. -/
theorem charLine_splitOn (t : Int) (g : Glyph) :
    (charLine t g).data.splitOn ' ' =
      ["char".data,
        "id".data ++ '=' :: (jsIntString (charIdOf g.char)).data,
        "x".data ++ '=' :: (jsIntString g.x).data,
        "y".data ++ '=' :: (jsIntString g.y).data,
        "width".data ++ '=' :: (jsIntString g.width).data,
        "height".data ++ '=' :: (jsIntString g.height).data,
        "xoffset".data ++ '=' :: (jsIntString g.xoffset).data,
        "yoffset".data ++ '=' :: (jsIntString g.yoffset).data,
        "xadvance".data ++ '=' :: (jsIntString (g.xadvance + t)).data,
        "page=0".data, "chnl=15".data] := by
  rw [charLine_data,
    splitOn_sep_cons _ _ (by decide),
    splitOn_sep_cons _ _ (space_notin_kv "id" _ (by decide)),
    splitOn_sep_cons _ _ (space_notin_kv "x" _ (by decide)),
    splitOn_sep_cons _ _ (space_notin_kv "y" _ (by decide)),
    splitOn_sep_cons _ _ (space_notin_kv "width" _ (by decide)),
    splitOn_sep_cons _ _ (space_notin_kv "height" _ (by decide)),
    splitOn_sep_cons _ _ (space_notin_kv "xoffset" _ (by decide)),
    splitOn_sep_cons _ _ (space_notin_kv "yoffset" _ (by decide)),
    splitOn_sep_cons _ _ (space_notin_kv "xadvance" _ (by decide)),
    splitOn_sep_cons _ _ (by decide),
    splitOn_sep_single _ (by decide)]

/-- Parsing one emitted `char` line recovers exactly the serialized fields. -/
theorem parseCharLine_charLine (t : Int) (g : Glyph) :
    parseCharLine (charLine t g) =
      some ⟨charIdOf g.char, g.x, g.y, g.width, g.height, g.xoffset,
        g.yoffset, g.xadvance + t⟩ := by
  unfold parseCharLine
  rw [charLine_splitOn]
  simp [show parseKV "id" ('i' :: 'd' :: '=' :: (jsIntString (charIdOf g.char)).data)
      = some (charIdOf g.char) from parseKV_mk "id" _ (by decide),
    show parseKV "x" ('x' :: '=' :: (jsIntString g.x).data) = some g.x from
      parseKV_mk "x" _ (by decide),
    show parseKV "y" ('y' :: '=' :: (jsIntString g.y).data) = some g.y from
      parseKV_mk "y" _ (by decide),
    show parseKV "width" ('w' :: 'i' :: 'd' :: 't' :: 'h' :: '=' ::
        (jsIntString g.width).data) = some g.width from
      parseKV_mk "width" _ (by decide),
    show parseKV "height" ('h' :: 'e' :: 'i' :: 'g' :: 'h' :: 't' :: '=' ::
        (jsIntString g.height).data) = some g.height from
      parseKV_mk "height" _ (by decide),
    show parseKV "xoffset" ('x' :: 'o' :: 'f' :: 'f' :: 's' :: 'e' :: 't' :: '=' ::
        (jsIntString g.xoffset).data) = some g.xoffset from
      parseKV_mk "xoffset" _ (by decide),
    show parseKV "yoffset" ('y' :: 'o' :: 'f' :: 'f' :: 's' :: 'e' :: 't' :: '=' ::
        (jsIntString g.yoffset).data) = some g.yoffset from
      parseKV_mk "yoffset" _ (by decide),
    show parseKV "xadvance" ('x' :: 'a' :: 'd' :: 'v' :: 'a' :: 'n' :: 'c' :: 'e' :: '=' ::
        (jsIntString (g.xadvance + t)).data) = some (g.xadvance + t) from
      parseKV_mk "xadvance" _ (by decide)]

/-- Every `char` line starts with `"char "`. -/
theorem isCharLine_charLine (t : Int) (g : Glyph) :
    isCharLine (charLine t g) = true := by
  unfold isCharLine
  rw [List.isPrefixOf_iff_prefix, charLine_data]
  refine ⟨("id".data ++ '=' :: (jsIntString (charIdOf g.char)).data) ++ ' ' ::
    (("x".data ++ '=' :: (jsIntString g.x).data) ++ ' ' ::
    (("y".data ++ '=' :: (jsIntString g.y).data) ++ ' ' ::
    (("width".data ++ '=' :: (jsIntString g.width).data) ++ ' ' ::
    (("height".data ++ '=' :: (jsIntString g.height).data) ++ ' ' ::
    (("xoffset".data ++ '=' :: (jsIntString g.xoffset).data) ++ ' ' ::
    (("yoffset".data ++ '=' :: (jsIntString g.yoffset).data) ++ ' ' ::
    (("xadvance".data ++ '=' :: (jsIntString (g.xadvance + t)).data) ++ ' ' ::
    ("page=0".data ++ ' ' :: "chnl=15".data)))))))), ?_⟩
  simp

/-- The `info` line is not a `char` line. -/
theorem isCharLine_infoLine (s : FontSettings) :
    isCharLine (infoLine s) = false := by
  unfold isCharLine infoLine
  rw [Bool.eq_false_iff]
  intro h
  rw [List.isPrefixOf_iff_prefix] at h
  obtain ⟨tl, he⟩ := h
  simp [String.data_append] at he

/-- The `common` line is not a `char` line. -/
theorem isCharLine_commonLine (s : FontSettings) :
    isCharLine (commonLine s) = false := by
  unfold isCharLine commonLine
  rw [Bool.eq_false_iff]
  intro h
  rw [List.isPrefixOf_iff_prefix] at h
  obtain ⟨tl, he⟩ := h
  simp [String.data_append] at he

/-- The `page` line is not a `char` line. -/
theorem isCharLine_pageLine (f : String) :
    isCharLine (pageLine f) = false := by
  unfold isCharLine pageLine
  rw [Bool.eq_false_iff]
  intro h
  rw [List.isPrefixOf_iff_prefix] at h
  obtain ⟨tl, he⟩ := h
  simp [String.data_append] at he

/-- The `chars count` line is not a `char` line. -/
theorem isCharLine_charsLine (glyphs : List Glyph) :
    isCharLine (charsLine glyphs) = false := by
  unfold isCharLine charsLine
  rw [Bool.eq_false_iff]
  intro h
  rw [List.isPrefixOf_iff_prefix] at h
  obtain ⟨tl, he⟩ := h
  simp [String.data_append] at he

/-- The header lines all drop out of the `char`-line filter. -/
theorem filter_headers_eq_nil (settings : FontSettings) (fname : String)
    (glyphs : List Glyph) :
    List.filter isCharLine
      [infoLine settings, commonLine settings, pageLine fname,
        charsLine glyphs] = [] := by
  rw [List.filter_cons_of_neg, List.filter_cons_of_neg,
      List.filter_cons_of_neg, List.filter_cons_of_neg, List.filter_nil] <;>
    simp [isCharLine_infoLine, isCharLine_commonLine, isCharLine_pageLine,
      isCharLine_charsLine]

/-- Mapping the parser over emitted `char` lines recovers the serialized
fields glyph by glyph. -/
theorem map_parseCharLine_charLine (settings : FontSettings) :
    ∀ gs : List Glyph,
      (gs.map (charLine settings.tracking)).map parseCharLine =
        gs.map fun g =>
          some (⟨charIdOf g.char, g.x, g.y, g.width, g.height, g.xoffset,
            g.yoffset, g.xadvance + settings.tracking⟩ : CharRecord) := by
  intro gs
  induction gs with
  | nil => rfl
  | cons g rest ih =>
    rw [List.map_cons, List.map_cons, List.map_cons,
      parseCharLine_charLine, ih]

/-- C4 (amended): serializing with the text exporter and re-parsing the
emitted char lines recovers, for every glyph, exactly the serialized fields:
the geometric tuple `(x, y, width, height, xoffset, yoffset)` identically,
while the recovered `id` is the char-code id (first UTF-16 unit of the
assigned character, or -1 when unset) rather than the glyph's own `id`, and
the recovered `xadvance` is the glyph's advance plus the global tracking. -/
theorem fnt_char_roundtrip (glyphs : List Glyph) (settings : FontSettings)
    (fname : String) :
    parseFntCharLines (generateFntLines glyphs settings fname) =
      glyphs.map fun g =>
        some ⟨charIdOf g.char, g.x, g.y, g.width, g.height, g.xoffset,
          g.yoffset, g.xadvance + settings.tracking⟩ := by
  unfold parseFntCharLines generateFntLines
  rw [List.filter_append, filter_headers_eq_nil, List.nil_append]
  rw [List.filter_eq_self.mpr (by
    intro l hl
    obtain ⟨g, _, rfl⟩ := List.mem_map.mp hl
    exact isCharLine_charLine _ g)]
  exact map_parseCharLine_charLine settings glyphs

/-- C4 counterexample: for the glyph with `id = 7`, `xadvance = 5`, empty
char, under tracking 3, the re-parsed char line carries `id = -1 ≠ 7` and
`xadvance = 8 ≠ 5`, so the glyph's own tuple is not recovered. -/
theorem fnt_char_roundtrip_counterexample :
    parseFntCharLines (generateFntLines [c4Glyph] c4Settings "font.png") =
      [some ⟨-1, 0, 0, 0, 0, 0, 0, 8⟩] ∧
      c4Glyph.id = 7 ∧ c4Glyph.xadvance = 5 ∧
      (-1 : Int) ≠ 7 ∧ (8 : Int) ≠ 5 := by
  refine ⟨?_, rfl, rfl, by decide, by decide⟩
  unfold parseFntCharLines generateFntLines
  rw [List.filter_append, filter_headers_eq_nil, List.nil_append]
  rw [List.filter_eq_self.mpr (by
    intro l hl
    obtain ⟨g, _, rfl⟩ := List.mem_map.mp hl
    exact isCharLine_charLine _ g)]
  rw [map_parseCharLine_charLine c4Settings [c4Glyph]]
  decide

/-- C8 (amended): every emitted char line's `id` field equals the first
UTF-16 code unit of the glyph's assigned char — the character's code point
exactly when it lies in the Basic Multilingual Plane — and -1 when the char
is unset. -/
theorem charLine_id_field (g : Glyph) (t : Int) :
    (parseCharLine (charLine t g)).map (·.id) = some (charIdOf g.char) ∧
      charIdOf "" = -1 ∧
      ∀ c : Char, charIdOf ⟨[c]⟩ =
        if c.toNat < 65536 then (c.toNat : Int)
        else 55296 + (((c.toNat : Int) - 65536) / 1024) := by
  refine ⟨?_, rfl, fun c => rfl⟩
  rw [parseCharLine_charLine]
  rfl

/-- C8 counterexample: for the supplementary-plane character U+1D11E the
emitted id is the high surrogate 55348, not the code point 119070. -/
theorem charLine_id_field_counterexample :
    charIdOf "𝄞" = 55348 ∧ ('𝄞' : Char).toNat = 119070 ∧
      "𝄞".data = ['𝄞'] ∧ (55348 : Int) ≠ 119070 ∧
      (parseCharLine (charLine 0 { defaultGlyph with char := "𝄞" })).map (·.id) =
        some 55348 := by
  refine ⟨by decide, by decide, by decide, by decide, ?_⟩
  rw [parseCharLine_charLine]
  decide
